import Mathlib

/-!
Verification of the style-prompt enrichment pipeline of the bookmark-map
repository (script `generate-style-prompts-kimi-cli.ts`).

The script is shallowly embedded: the external processes (the `bird`
media-lookup CLI and the `kimi` analysis CLI) are modelled as oracle
functions supplied in an `Env`; a thrown `execSync` (non-zero exit or
timeout) is `Except.error`, its stdout on success is `Except.ok`.
`JSON.parse` casts (which the script wraps in try/catch) are modelled as
`Option`-returning parse oracles.  JavaScript number semantics that the
script relies on (`Math.min`, `Array.prototype.slice`, `parseInt`
producing `NaN`) are embedded explicitly in the `JSNum` type.
-/

namespace BookmarkPipeline

/-- `styleGuide` sub-object of a style analysis (`StyleAnalysis.styleGuide`
in the script); `colors: Record<string, string>` is an association list. -/
structure StyleGuide where
  colors : List (String × String)
  typography : Option String
  spacing : Option String
  animations : Option (List String)
deriving Repr, DecidableEq

/-- `StyleAnalysis` interface of the script. -/
structure StyleAnalysis where
  prompt : String
  style : List String
  colorPalette : List String
  technique : String
  mood : String
  movement : String
  reactImplementation : Option String
  styleGuide : Option StyleGuide
deriving Repr, DecidableEq

/-- `BirdMedia` interface of the script (one media item of a tweet). -/
structure BirdMedia where
  type : String
  url : String
  videoUrl : Option String
  width : Option Int
  height : Option Int
deriving Repr, DecidableEq

/-- `BirdTweetResponse` interface of the script. -/
structure BirdTweetResponse where
  id : String
  text : String
  media : Option (List BirdMedia)
deriving Repr, DecidableEq

/-- `Bookmark` interface of the script; TypeScript `T | null` and
optional fields are both `Option`. -/
structure Bookmark where
  id : String
  text : String
  fullText : Option String
  author : String
  authorName : Option String
  url : String
  likes : Int
  date : Int
  dateStr : String
  mediaType : Option String
  mediaUrl : Option String
  category : Option String
  stylePrompt : Option String
  styleAnalysis : Option StyleAnalysis
deriving Repr, DecidableEq

/-- `BookmarkData`: the dataset, a JSON object keyed by category name;
embedded as an association list (keys unique in JSON, lookup is
first-match). -/
abbrev BookmarkData := List (String × List Bookmark)

/-- JavaScript truthiness of a `string | null | undefined` value:
`null`/`undefined` and the empty string are falsy. -/
def strTruthy : Option String → Bool
  | none => false
  | some s => s != ""

/-- JavaScript number as the script uses it: a finite integer, `Infinity`
(the default of `LIMIT`), or `NaN` (result of a failed `parseInt`). -/
inductive JSNum where
  | num (n : Int)
  | posInf
  | nan
deriving Repr, DecidableEq

/-- `Math.min(a, b)` where `a` is an array length: `NaN` is absorbing,
`Infinity` loses against the finite length. -/
def jsMin (a : Nat) (b : JSNum) : JSNum :=
  match b with
  | JSNum.num n => JSNum.num (min (a : Int) n)
  | JSNum.posInf => JSNum.num (a : Int)
  | JSNum.nan => JSNum.nan

/-- `l.slice(0, e)` of JavaScript: `NaN` end is converted to 0 (empty
result), a negative end counts from the end of the array, `Infinity` is
clamped to the length. -/
def jsSliceEnd (l : List α) (e : JSNum) : List α :=
  match e with
  | JSNum.num n => if n < 0 then l.take (l.length - n.natAbs) else l.take n.toNat
  | JSNum.posInf => l
  | JSNum.nan => []

/-- Numeric value of a decimal digit character. -/
def digitVal (ch : Char) : Nat := ch.toNat - '0'.toNat

/-- Value of a block of decimal digit characters. -/
def digitsToNat (ds : List Char) : Nat :=
  ds.foldl (fun acc ch => acc * 10 + digitVal ch) 0

/-- `parseInt(s, 10)`: skip leading whitespace, optional sign, then the
longest run of decimal digits; `NaN` when that run is empty. -/
def jsParseIntStr (s : String) : JSNum :=
  let cs := s.toList.dropWhile (fun ch => ch.isWhitespace)
  match cs with
  | '-' :: rest =>
    let ds := rest.takeWhile (fun ch => ch.isDigit)
    if ds.isEmpty then JSNum.nan else JSNum.num (-(digitsToNat ds : Int))
  | '+' :: rest =>
    let ds := rest.takeWhile (fun ch => ch.isDigit)
    if ds.isEmpty then JSNum.nan else JSNum.num (digitsToNat ds : Int)
  | other =>
    let ds := other.takeWhile (fun ch => ch.isDigit)
    if ds.isEmpty then JSNum.nan else JSNum.num (digitsToNat ds : Int)

/-- `parseInt(args[i], 10)` where the argument may be absent:
`parseInt(undefined, 10)` is `NaN` (it stringifies to "undefined",
which has no leading digits). -/
def jsParseInt : Option String → JSNum
  | none => JSNum.nan
  | some s => jsParseIntStr s

/-- Index (from the start of the list) of the last occurrence of `c`. -/
def lastIdxOf (c : Char) : List Char → Option Nat
  | [] => none
  | x :: xs =>
    match lastIdxOf c xs with
    | some j => some (j + 1)
    | none => if x = c then some 0 else none

/-- Operational embedding of `s.match(/\{[\s\S]*\}/)`: the regex engine
scans start positions left to right; at an opening brace it greedily
extends to the last closing brace of the remainder. -/
def matchBraces : List Char → Option (List Char)
  | [] => none
  | c :: rest =>
    if c = '{' then
      match lastIdxOf '}' rest with
      | some j => some ('{' :: rest.take (j + 1))
      | none => matchBraces rest
    else matchBraces rest

/-- Result record of `fetchTweetMedia`. -/
structure FetchResult where
  mediaUrl : String
  isVideo : Bool
deriving Repr, DecidableEq

/-- `fetchTweetMedia` of the script.  `birdExec` is the
`execSync("bird read --json ...")` call (thrown error = non-zero exit or
30s timeout); `parseTweet` is the `JSON.parse` cast to
`BirdTweetResponse` (`none` = throw, caught by the script). -/
def fetchTweetMedia (birdExec : String → Except Unit String)
    (parseTweet : String → Option BirdTweetResponse) (tweetUrl : String) :
    Option FetchResult :=
  match birdExec tweetUrl with
  | Except.error _ => none
  | Except.ok result =>
    match matchBraces result.toList with
    | none => none
    | some js =>
      match parseTweet (String.mk js) with
      | none => none
      | some tweet =>
        match tweet.media with
        | none => none
        | some [] => none
        | some (media :: _) =>
          let isVideo := media.type == "video" || media.type == "animated_gif"
          let mediaUrl :=
            match media.videoUrl with
            | some v => if isVideo && !(v == "") then v else media.url
            | none => media.url
          some ⟨mediaUrl, isVideo⟩

/-- `analyzeWithKimiCLIDirect` of the script.  `kimiExec` stands for the
`execSync("kimi --quiet -p ...")` call on the prompt built from the
media kind and URL (the prompt text itself carries no further
information); `parseAnalysis` is the `JSON.parse` cast to
`StyleAnalysis`.  The second component of the result records the
invocations of the kimi oracle (for frame conditions); the script's
return value is the first component. -/
def analyzeWithKimiCLIDirect (kimiExec : Bool → String → Except Unit String)
    (parseAnalysis : String → Option StyleAnalysis)
    (mediaUrl : Option String) (isVideo : Bool) (fallbackUrl : Option String) :
    Option StyleAnalysis × List (Bool × String) :=
  match (if strTruthy mediaUrl then mediaUrl else fallbackUrl) with
  | none => (none, [])
  | some urlToUse =>
    if urlToUse = "" then (none, [])
    else
      ((match kimiExec isVideo urlToUse with
        | Except.error _ => none
        | Except.ok result =>
          match matchBraces result.toList with
          | none => none
          | some js => parseAnalysis (String.mk js)),
       [(isVideo, urlToUse)])

/-- The oracle environment of one run: whether the two preflight checks
(`bird --version`, `kimi --version`) succeed, and the behaviour of the
two external tools and of the two `JSON.parse` casts. -/
structure Env where
  birdOk : Bool
  kimiOk : Bool
  birdExec : String → Except Unit String
  parseTweet : String → Option BirdTweetResponse
  kimiExec : Bool → String → Except Unit String
  parseAnalysis : String → Option StyleAnalysis

/-- One element of the script's `toProcess` list:
`{ category, index, bookmark }`. -/
structure SelJob where
  category : String
  index : Nat
  bookmark : Bookmark
deriving Repr, DecidableEq

/-- Outcome of `processBookmark` for one job, instrumented with the
oracle invocations it performed (`birdTrace`: urls passed to the bird
CLI; `kimiTrace`: media kind and url passed to the kimi CLI). -/
structure JobResult where
  success : Bool
  bookmark : Bookmark
  birdTrace : List String
  kimiTrace : List (Bool × String)
deriving Repr, DecidableEq

/-- The media url / kind a job analyzes: the bird CLI result when the
lookup succeeded, otherwise the bookmark's own stored reference
(lines `let mediaUrl = bookmark.mediaUrl!; ... if (birdResult) ...`). -/
def resolveForJob (env : Env) (b : Bookmark) : Option String × Bool :=
  let isVideo := b.mediaType == some "video" || b.mediaType == some "animated_gif"
  match fetchTweetMedia env.birdExec env.parseTweet b.url with
  | some r => (some r.mediaUrl, r.isVideo)
  | none => (b.mediaUrl, isVideo)

/-- The analyzer call of `processBookmark`, with its kimi-invocation
trace: `analyzeWithKimiCLIDirect(mediaUrl, mediaIsVideo, bookmark.mediaUrl!)`. -/
def analyzeForJob (env : Env) (b : Bookmark) :
    Option StyleAnalysis × List (Bool × String) :=
  analyzeWithKimiCLIDirect env.kimiExec env.parseAnalysis
    (resolveForJob env b).1 (resolveForJob env b).2 b.mediaUrl

/-- The analysis the job obtains (the script's `analysis` local). -/
def jobAnalysis (env : Env) (b : Bookmark) : Option StyleAnalysis :=
  (analyzeForJob env b).1

/-- `processBookmark` of the script: on a non-null analysis it attaches
`styleAnalysis` and `stylePrompt = analysis.prompt` to the bookmark and
reports success; on null it leaves the bookmark untouched and reports
failure.  `fetchTweetMedia` is always invoked once on the bookmark's
url. -/
def processBookmark (env : Env) (b : Bookmark) : JobResult :=
  match jobAnalysis env b with
  | some analysis =>
    { success := true
      bookmark := { b with styleAnalysis := some analysis
                           stylePrompt := some analysis.prompt }
      birdTrace := [b.url]
      kimiTrace := (analyzeForJob env b).2 }
  | none =>
    { success := false
      bookmark := b
      birdTrace := [b.url]
      kimiTrace := (analyzeForJob env b).2 }

/-- Observable events of a worker-pool run: a batch of jobs executed
concurrently (the pool awaits all of them before the next event), or the
fixed 2-second inter-batch cooldown (`await delay(2000)`). -/
inductive PoolEvent where
  | batch (jobs : List SelJob)
  | cooldown
deriving Repr, DecidableEq

/-- Accumulated outcome of `processInParallel`. -/
structure PoolOut where
  processed : Nat
  errors : Nat
  results : List (SelJob × JobResult)
  events : List PoolEvent
  birdTrace : List String
  kimiTrace : List (Bool × String)
deriving Repr, DecidableEq

/-- The loop body of `processInParallel`
(`for (let i = 0; i < bookmarks.length; i += concurrency)`), recursion
on a fuel that the caller sets to the list length (each iteration
consumes at least one job when `concurrency > 0`, so the fuel never runs
out). `bookmarks.slice(i, i + concurrency)` is `take`, the rest is
`drop`; the cooldown runs exactly when `i + concurrency <
bookmarks.length`, i.e. when jobs remain. -/
def processInParallelAux (env : Env) (concurrency : Nat) :
    Nat → List SelJob → PoolOut
  | _, [] => ⟨0, 0, [], [], [], []⟩
  | 0, _ :: _ => ⟨0, 0, [], [], [], []⟩
  | fuel + 1, j :: js =>
    let jobs := j :: js
    let batch := jobs.take concurrency
    let batchResults := batch.map (fun item => (item, processBookmark env item.bookmark))
    let rest := jobs.drop concurrency
    let tail := processInParallelAux env concurrency fuel rest
    ⟨batchResults.countP (fun p => p.2.success) + tail.processed,
     batchResults.countP (fun p => !p.2.success) + tail.errors,
     batchResults ++ tail.results,
     PoolEvent.batch batch ::
       (if rest.isEmpty then tail.events else PoolEvent.cooldown :: tail.events),
     batchResults.flatMap (fun p => p.2.birdTrace) ++ tail.birdTrace,
     batchResults.flatMap (fun p => p.2.kimiTrace) ++ tail.kimiTrace⟩

/-- `processInParallel` of the script. -/
def processInParallel (env : Env) (bookmarks : List SelJob) (concurrency : Nat) :
    PoolOut :=
  processInParallelAux env concurrency bookmarks.length bookmarks

/-- `STYLE_ENABLED_CATEGORIES` of the script. -/
def STYLE_ENABLED_CATEGORIES : List String := ["Art & Inspiration", "Design & UI"]

/-- `CONCURRENCY` of the script. -/
def CONCURRENCY : Nat := 5

/-- `data[category]` lookup (first matching key of the object). -/
def lookupCat : BookmarkData → String → Option (List Bookmark)
  | [], _ => none
  | (k, bs) :: rest, c => if k = c then some bs else lookupCat rest c

/-- In-place replacement of entry `i` of category `c` (the script
mutates the bookmark object inside `data[c]`). -/
def setEntry : BookmarkData → String → Nat → Bookmark → BookmarkData
  | [], _, _, _ => []
  | (k, bs) :: rest, c, i, b =>
    if k = c then (k, bs.set i b) :: rest
    else (k, bs) :: setEntry rest c i b

/-- Eligibility test of the selection loop:
`bookmark.mediaUrl && !bookmark.styleAnalysis`. -/
def eligibleB (b : Bookmark) : Bool := strTruthy b.mediaUrl && b.styleAnalysis.isNone

/-- The `toProcess` collection loops of `main`: for each configured
category (skipping absent ones), push every eligible bookmark with its
index, in index order. -/
def selectJobs (data : BookmarkData) : List SelJob :=
  STYLE_ENABLED_CATEGORIES.foldl (fun acc category =>
    match lookupCat data category with
    | none => acc
    | some bookmarks =>
      (bookmarks.foldl
        (fun (st : List SelJob × Nat) (b : Bookmark) =>
          (if eligibleB b then st.1 ++ [⟨category, st.2, b⟩] else st.1, st.2 + 1))
        (acc, 0)).1) []

/-- Specification-side restatement of JobSelector (for comparison with
`selectJobs`): the concatenation, in category-list order, of each
category's eligible entries in index order. -/
def selectJobsSpec (data : BookmarkData) : List SelJob :=
  STYLE_ENABLED_CATEGORIES.flatMap (fun category =>
    match lookupCat data category with
    | none => []
    | some bookmarks =>
      (bookmarks.enum.filter (fun p => eligibleB p.2)).map
        (fun p => ⟨category, p.1, p.2⟩))

/-- Replay of the in-place bookmark mutations into the dataset: each job
result replaces the entry it owns. -/
def applyResults (data : BookmarkData) (results : List (SelJob × JobResult)) :
    BookmarkData :=
  results.foldl (fun d p => setEntry d p.1.category p.1.index p.2.bookmark) data

/-- `args.indexOf('--limit')` and the `LIMIT` constant:
`parseInt(args[limitIndex + 1], 10)` when the flag is present, else
`Infinity`. -/
def parseLimit (args : List String) : JSNum :=
  match args.findIdx? (fun s => s == "--limit") with
  | none => JSNum.posInf
  | some i => jsParseInt (args.get? (i + 1))

/-- Observable outcome of one run of `main`.  `exitCode` is the process
exit status (`process.exit(1)` on a failed preflight, otherwise 0);
`datasetRead` records whether `readFileSync(DATA_FILE)` was reached;
`jobs` is `itemsToProcess`; `saved` whether `writeFileSync(DATA_FILE, ...)`
ran; `finalData` the in-memory dataset after the run. -/
structure RunOut where
  exitCode : Nat
  datasetRead : Bool
  jobs : List SelJob
  processed : Nat
  errors : Nat
  saved : Bool
  finalData : BookmarkData
  birdTrace : List String
  kimiTrace : List (Bool × String)
deriving Repr, DecidableEq

/-- `main` of the script: preflight the two CLIs (exit 1 before any
dataset access if either is missing), load the dataset, select jobs,
return early when none, truncate by `LIMIT`, then either dry-run (log
only) or run the pool and, when at least one job succeeded, save. -/
def mainRun (env : Env) (data : BookmarkData) (dryRun : Bool) (limit : JSNum) :
    RunOut :=
  if env.birdOk = false then
    ⟨1, false, [], 0, 0, false, data, [], []⟩
  else if env.kimiOk = false then
    ⟨1, false, [], 0, 0, false, data, [], []⟩
  else
    let toProcess := selectJobs data
    if toProcess.isEmpty then
      ⟨0, true, [], 0, 0, false, data, [], []⟩
    else
      let processCount := jsMin toProcess.length limit
      let itemsToProcess := jsSliceEnd toProcess processCount
      if dryRun then
        ⟨0, true, itemsToProcess, 0, 0, false, data, [], []⟩
      else
        let pool := processInParallel env itemsToProcess CONCURRENCY
        ⟨0, true, itemsToProcess, pool.processed, pool.errors,
         decide (0 < pool.processed), applyResults data pool.results,
         pool.birdTrace, pool.kimiTrace⟩

/-- The consecutive batches the pool loop visits: `take c`, then recurse
on `drop c`; same fuel discipline as `processInParallelAux`. -/
def chunksAux (c : Nat) : Nat → List α → List (List α)
  | _, [] => []
  | 0, _ :: _ => []
  | fuel + 1, x :: xs => (x :: xs).take c :: chunksAux c fuel ((x :: xs).drop c)

/-- Partition of a list into consecutive batches of size `c` (last batch
possibly smaller), for `0 < c`. -/
def chunks (c : Nat) (l : List α) : List (List α) := chunksAux c l.length l

/-- The event trace the spec describes for the worker pool: the batches
in order, a cooldown between consecutive batches, none after the last. -/
def batchesWithCooldowns : List (List SelJob) → List PoolEvent
  | [] => []
  | [b] => [PoolEvent.batch b]
  | b :: b2 :: bs =>
    PoolEvent.batch b :: PoolEvent.cooldown :: batchesWithCooldowns (b2 :: bs)

/-- Concrete environment for witnesses: both preflight checks pass,
both tools fail when invoked. -/
def envOk : Env :=
  { birdOk := true
    kimiOk := true
    birdExec := fun _ => Except.error ()
    parseTweet := fun _ => none
    kimiExec := fun _ _ => Except.error ()
    parseAnalysis := fun _ => none }

/-- Concrete analysis value for witnesses. -/
def sampleAnalysis : StyleAnalysis :=
  { prompt := "a minimal grid"
    style := ["minimal"]
    colorPalette := ["#ffffff"]
    technique := "flat"
    mood := "calm"
    movement := "swiss"
    reactImplementation := none
    styleGuide := none }

/-- Concrete bookmark builder for witnesses. -/
def mkBookmark (id : String) (mediaUrl : Option String)
    (sa : Option StyleAnalysis) : Bookmark :=
  { id := id
    text := "text"
    fullText := none
    author := "author"
    authorName := none
    url := String.append "https://x.com/s/" id
    likes := 3
    date := 1700000000
    dateStr := "2023-11-14"
    mediaType := some "photo"
    mediaUrl := mediaUrl
    category := none
    stylePrompt := none
    styleAnalysis := sa }

/-- Concrete dataset for witnesses: one eligible entry, one already
analyzed, one entry in a non-enabled category. -/
def dataW : BookmarkData :=
  [("Design & UI",
    [mkBookmark "b1" (some "https://img/1") none,
     mkBookmark "b2" (some "https://img/2") (some sampleAnalysis)]),
   ("Crypto", [mkBookmark "b3" (some "https://img/3") none])]

/-- Twelve jobs, for the batch-size witness. -/
def jobs12 : List SelJob :=
  (List.range 12).map (fun k => ⟨"Design & UI", k, mkBookmark "j" (some "https://img/j") none⟩)

/-- Kimi oracle for witnesses: output with text around the JSON object. -/
def kimiExecW : Bool → String → Except Unit String :=
  fun _ _ => Except.ok "ab{cd}ef"

/-- Analysis parse oracle for witnesses: succeeds exactly on the brace
substring of `kimiExecW`'s output. -/
def parseAnalysisW : String → Option StyleAnalysis :=
  fun s => if s = "{cd}" then some sampleAnalysis else none

/-- Environment for witnesses in which the analysis tool succeeds (the
media lookup still fails, exercising the fallback to the stored url). -/
def envGood : Env :=
  { birdOk := true
    kimiOk := true
    birdExec := fun _ => Except.error ()
    parseTweet := fun _ => none
    kimiExec := kimiExecW
    parseAnalysis := parseAnalysisW }

/-- Concrete eligible bookmark for witnesses. -/
def bW : Bookmark := mkBookmark "b1" (some "https://img/1") none

/-- Environment for witnesses in which the bird CLI preflight fails. -/
def envNoBird : Env :=
  { birdOk := false
    kimiOk := true
    birdExec := fun _ => Except.error ()
    parseTweet := fun _ => none
    kimiExec := fun _ _ => Except.error ()
    parseAnalysis := fun _ => none }

/-- Bird stdout oracle for witnesses. -/
def birdExecW : String → Except Unit String :=
  fun _ => Except.ok "w{j}"

/-- Media item for witnesses: a video carrying both a generic url and a
video-stream url. -/
def mediaW : BirdMedia :=
  { type := "video"
    url := "https://img/full"
    videoUrl := some "https://video/stream"
    width := none
    height := none }

/-- Tweet for witnesses. -/
def tweetW : BirdTweetResponse :=
  { id := "1"
    text := "t"
    media := some [mediaW] }

/-- Tweet parse oracle for witnesses. -/
def parseTweetW : String → Option BirdTweetResponse :=
  fun _ => some tweetW

/-! ### The brace-extraction regex -/

theorem lastIdxOf_of_not_mem (c : Char) : ∀ cs : List Char, c ∉ cs → lastIdxOf c cs = none := by
  intro cs
  induction cs with
  | nil => intro _; rfl
  | cons x xs ih =>
    intro h
    rw [List.mem_cons, not_or] at h
    have hx : ¬ x = c := fun he => h.1 he.symm
    simp [lastIdxOf, ih h.2, hx]

theorem lastIdxOf_append_last (c : Char) : ∀ (mid post : List Char), c ∉ post →
    lastIdxOf c (mid ++ c :: post) = some mid.length := by
  intro mid
  induction mid with
  | nil =>
    intro post hp
    simp [lastIdxOf, lastIdxOf_of_not_mem c post hp]
  | cons x mid ih =>
    intro post hp
    simp [lastIdxOf, ih post hp]

theorem matchBraces_decomp : ∀ (pre mid post : List Char), '{' ∉ pre → '}' ∉ post →
    matchBraces (pre ++ '{' :: (mid ++ '}' :: post)) = some ('{' :: (mid ++ ['}'])) := by
  intro pre
  induction pre with
  | nil =>
    intro mid post _ hpost
    simp only [List.nil_append, matchBraces]
    rw [lastIdxOf_append_last '}' mid post hpost]
    have ht : (mid ++ '}' :: post).take (mid.length + 1) = mid ++ ['}'] := by
      simpa using @List.take_append Char mid ('}' :: post) 1
    simp [ht]
  | cons p pre ih =>
    intro mid post hpre hpost
    rw [List.mem_cons, not_or] at hpre
    have hp : ¬ p = '{' := fun he => hpre.1 he.symm
    simp only [List.cons_append, matchBraces, hp, if_false]
    exact ih mid post hpre.2 hpost

theorem matchBraces_none : ∀ cs : List Char,
    (∀ i j, i < j → ¬(cs.get? i = some '{' ∧ cs.get? j = some '}')) →
    matchBraces cs = none := by
  intro cs
  induction cs with
  | nil => intro _; rfl
  | cons c rest ih =>
    intro H
    have Hrest : ∀ i j, i < j → ¬(rest.get? i = some '{' ∧ rest.get? j = some '}') := by
      intro i j hij hc
      exact H (i + 1) (j + 1) (by omega) ⟨by simpa using hc.1, by simpa using hc.2⟩
    by_cases hc : c = '{'
    · have hnot : '}' ∉ rest := by
        intro hmem
        obtain ⟨k, hk⟩ := List.mem_iff_get?.mp hmem
        exact H 0 (k + 1) (Nat.succ_pos k) ⟨by simp [hc], by simpa using hk⟩
      simp [matchBraces, hc, lastIdxOf_of_not_mem '}' rest hnot, ih Hrest]
    · simp [matchBraces, hc, ih Hrest]

/-- Claim C2: for every raw tool output, the Analyzer extracts exactly the
substring spanning the first opening brace to the last closing brace and
parses only that substring; when no such substring exists (no opening
brace followed by a closing brace) it returns null, and a parse failure
also yields null (`parseAnalysis` returning `none`) without throwing. -/
theorem analyzer_extracts_first_to_last_brace
    (kimiExec : Bool → String → Except Unit String)
    (parseAnalysis : String → Option StyleAnalysis)
    (u : String) (isVideo : Bool) (fallbackUrl : Option String) (out : String)
    (hu : u ≠ "") (hexec : kimiExec isVideo u = Except.ok out) :
    (∀ pre mid post, out.toList = pre ++ '{' :: (mid ++ '}' :: post) →
        '{' ∉ pre → '}' ∉ post →
        (analyzeWithKimiCLIDirect kimiExec parseAnalysis (some u) isVideo fallbackUrl).1
          = parseAnalysis (String.mk ('{' :: (mid ++ ['}']))))
    ∧ ((∀ i j, i < j → ¬(out.toList.get? i = some '{' ∧ out.toList.get? j = some '}')) →
        (analyzeWithKimiCLIDirect kimiExec parseAnalysis (some u) isVideo fallbackUrl).1
          = none) := by
  have hstr : strTruthy (some u) = true := by simp [strTruthy, hu]
  have hred : analyzeWithKimiCLIDirect kimiExec parseAnalysis (some u) isVideo fallbackUrl
      = ((match matchBraces out.toList with
          | none => none
          | some js => parseAnalysis (String.mk js)), [(isVideo, u)]) := by
    simp [analyzeWithKimiCLIDirect, hstr, hu, hexec]
  have hred1 : (analyzeWithKimiCLIDirect kimiExec parseAnalysis (some u) isVideo fallbackUrl).1
      = (match matchBraces out.toList with
         | none => none
         | some js => parseAnalysis (String.mk js)) := by
    rw [hred]
  constructor
  · intro pre mid post hdec hpre hpost
    rw [hred1, hdec, matchBraces_decomp pre mid post hpre hpost]
  · intro H
    rw [hred1, matchBraces_none out.toList H]

/-- Witness for C2: concrete tool output `"ab{cd}ef"` with surrounding
text; the Analyzer hands exactly `"{cd}"` to the parser. -/
theorem analyzer_extracts_witness :
    ("u" : String) ≠ "" ∧
    kimiExecW true "u" = Except.ok "ab{cd}ef" ∧
    (analyzeWithKimiCLIDirect kimiExecW parseAnalysisW (some "u") true none).1
      = parseAnalysisW (String.mk ('{' :: (['c', 'd'] ++ ['}']))) := by
  refine ⟨by decide, rfl, ?_⟩
  exact (analyzer_extracts_first_to_last_brace kimiExecW parseAnalysisW "u" true none
      "ab{cd}ef" (by decide) rfl).1 ['a', 'b'] ['c', 'd'] ['e', 'f']
      (by decide) (by decide) (by decide)

/-! ### MediaResolver -/

theorem fetchTweetMedia_ok (birdExec : String → Except Unit String)
    (parseTweet : String → Option BirdTweetResponse) (url out : String)
    (js : List Char) (t : BirdTweetResponse) (m : BirdMedia) (rest : List BirdMedia)
    (ho : birdExec url = Except.ok out) (hm : matchBraces out.toList = some js)
    (hp : parseTweet (String.mk js) = some t) (hmed : t.media = some (m :: rest)) :
    fetchTweetMedia birdExec parseTweet url =
      some ⟨(match m.videoUrl with
             | some v =>
               if (m.type == "video" || m.type == "animated_gif") && !(v == "") then v
               else m.url
             | none => m.url),
            m.type == "video" || m.type == "animated_gif"⟩ := by
  simp only [fetchTweetMedia, ho, hm, hp, hmed]

/-- Claim C8: MediaResolver returns null on every failure of the external
lookup (thrown exec = non-zero exit or timeout, no extractable JSON,
unparsable JSON, absent or empty media list); on success it classifies
the entry as video exactly when the first media item's kind is "video"
or "animated_gif", and for video it prefers the dedicated `videoUrl`
field over the generic `url` field when the former is present and
non-empty. -/
theorem mediaResolver_spec (birdExec : String → Except Unit String)
    (parseTweet : String → Option BirdTweetResponse) (url : String) :
    (∀ e, birdExec url = Except.error e → fetchTweetMedia birdExec parseTweet url = none)
    ∧ (∀ out, birdExec url = Except.ok out → matchBraces out.toList = none →
        fetchTweetMedia birdExec parseTweet url = none)
    ∧ (∀ out js, birdExec url = Except.ok out → matchBraces out.toList = some js →
        parseTweet (String.mk js) = none → fetchTweetMedia birdExec parseTweet url = none)
    ∧ (∀ out js t, birdExec url = Except.ok out → matchBraces out.toList = some js →
        parseTweet (String.mk js) = some t → (t.media = none ∨ t.media = some []) →
        fetchTweetMedia birdExec parseTweet url = none)
    ∧ (∀ out js t m rest, birdExec url = Except.ok out → matchBraces out.toList = some js →
        parseTweet (String.mk js) = some t → t.media = some (m :: rest) →
        ∃ r, fetchTweetMedia birdExec parseTweet url = some r
          ∧ (r.isVideo = true ↔ (m.type = "video" ∨ m.type = "animated_gif"))
          ∧ (∀ v, r.isVideo = true → m.videoUrl = some v → v ≠ "" → r.mediaUrl = v)
          ∧ (m.videoUrl = none → r.mediaUrl = m.url)) := by
  refine ⟨?_, ?_, ?_, ?_, ?_⟩
  · intro e he
    simp only [fetchTweetMedia, he]
  · intro out ho hm
    simp only [fetchTweetMedia, ho, hm]
  · intro out js ho hm hp
    simp only [fetchTweetMedia, ho, hm, hp]
  · intro out js t ho hm hp hmed
    rcases hmed with h | h <;> simp only [fetchTweetMedia, ho, hm, hp, h]
  · intro out js t m rest ho hm hp hmed
    refine ⟨_, fetchTweetMedia_ok birdExec parseTweet url out js t m rest ho hm hp hmed,
      ?_, ?_, ?_⟩
    · simp
    · intro v hvid hvv hne
      simp only [hvv]
      simp only at hvid
      simp [hvid, hne]
    · intro hvn
      simp [hvn]

/-- Witness for C8 at concrete oracles: a successful lookup of a video
tweet where the video-stream url is preferred. -/
theorem mediaResolver_witness :
    birdExecW "https://x.com/s/w" = Except.ok "w{j}" ∧
    matchBraces ("w{j}".toList) = some ['{', 'j', '}'] ∧
    (∃ r, fetchTweetMedia birdExecW parseTweetW "https://x.com/s/w" = some r
      ∧ (r.isVideo = true ↔ (mediaW.type = "video" ∨ mediaW.type = "animated_gif"))
      ∧ (∀ v, r.isVideo = true → mediaW.videoUrl = some v → v ≠ "" → r.mediaUrl = v)
      ∧ (mediaW.videoUrl = none → r.mediaUrl = mediaW.url)) := by
  refine ⟨rfl, by decide, ?_⟩
  exact (mediaResolver_spec birdExecW parseTweetW "https://x.com/s/w").2.2.2.2 "w{j}"
    ['{', 'j', '}'] tweetW mediaW [] rfl (by decide) rfl rfl

/-! ### Worker pool -/

theorem countP_take_drop (p : α → Bool) (c : Nat) (l : List α) :
    l.countP p = (l.take c).countP p + (l.drop c).countP p := by
  conv_lhs => rw [← List.take_append_drop c l]
  rw [List.countP_append]

theorem map_take_drop (f : α → β) (c : Nat) (l : List α) :
    l.map f = (l.take c).map f ++ (l.drop c).map f := by
  conv_lhs => rw [← List.take_append_drop c l]
  rw [List.map_append]

theorem flatMap_take_drop (g : α → List β) (c : Nat) (l : List α) :
    l.flatMap g = (l.take c).flatMap g ++ (l.drop c).flatMap g := by
  conv_lhs => rw [← List.take_append_drop c l]
  rw [List.flatMap_append]

theorem processInParallelAux_eq (env : Env) (c : Nat) (hc : 0 < c) :
    ∀ (fuel : Nat) (l : List SelJob), l.length ≤ fuel →
    processInParallelAux env c fuel l =
      ⟨l.countP (fun j => (processBookmark env j.bookmark).success),
       l.countP (fun j => !(processBookmark env j.bookmark).success),
       l.map (fun j => (j, processBookmark env j.bookmark)),
       batchesWithCooldowns (chunksAux c fuel l),
       l.flatMap (fun j => (processBookmark env j.bookmark).birdTrace),
       l.flatMap (fun j => (processBookmark env j.bookmark).kimiTrace)⟩ := by
  intro fuel
  induction fuel with
  | zero =>
    intro l hl
    have hnil : l = [] := List.length_eq_zero.mp (Nat.le_zero.mp hl)
    subst hnil
    rfl
  | succ fuel ih =>
    intro l hl
    cases l with
    | nil => rfl
    | cons j js =>
      have hrest : ((j :: js).drop c).length ≤ fuel := by
        rw [List.length_drop]
        simp only [List.length_cons] at hl ⊢
        omega
      simp only [processInParallelAux, ih _ hrest]
      refine PoolOut.mk.injEq _ _ _ _ _ _ _ _ _ _ _ _ ▸ ⟨?_, ?_, ?_, ?_, ?_, ?_⟩
      · rw [List.countP_map]
        exact (countP_take_drop _ c (j :: js)).symm
      · rw [List.countP_map]
        exact (countP_take_drop _ c (j :: js)).symm
      · exact (map_take_drop _ c (j :: js)).symm
      · cases hdrop : (j :: js).drop c with
        | nil =>
          simp only [chunksAux, hdrop, List.isEmpty_nil]
          rfl
        | cons d ds =>
          cases fuel with
          | zero =>
            exfalso
            rw [hdrop] at hrest
            simp at hrest
          | succ f =>
            simp [chunksAux, hdrop, batchesWithCooldowns]
      · rw [List.flatMap_map]
        exact (flatMap_take_drop _ c (j :: js)).symm
      · rw [List.flatMap_map]
        exact (flatMap_take_drop _ c (j :: js)).symm

theorem chunksAux_join (c : Nat) (hc : 0 < c) :
    ∀ (fuel : Nat) (l : List α), l.length ≤ fuel → (chunksAux c fuel l).flatten = l := by
  intro fuel
  induction fuel with
  | zero =>
    intro l hl
    have hnil : l = [] := List.length_eq_zero.mp (Nat.le_zero.mp hl)
    subst hnil
    rfl
  | succ fuel ih =>
    intro l hl
    cases l with
    | nil => rfl
    | cons x xs =>
      have hrest : ((x :: xs).drop c).length ≤ fuel := by
        rw [List.length_drop]
        simp only [List.length_cons] at hl ⊢
        omega
      simp only [chunksAux, List.flatten_cons, ih _ hrest]
      exact List.take_append_drop c (x :: xs)

theorem chunksAux_mem_len (c : Nat) (hc : 0 < c) :
    ∀ (fuel : Nat) (l : List α), ∀ b ∈ chunksAux c fuel l, 0 < b.length ∧ b.length ≤ c := by
  intro fuel
  induction fuel with
  | zero =>
    intro l b hb
    cases l <;> simp [chunksAux] at hb
  | succ fuel ih =>
    intro l b hb
    cases l with
    | nil => simp [chunksAux] at hb
    | cons x xs =>
      simp only [chunksAux, List.mem_cons] at hb
      rcases hb with hb | hb
      · subst hb
        rw [List.length_take]
        simp only [List.length_cons]
        omega
      · exact ih _ b hb

theorem chunksAux_dropLast_len (c : Nat) (hc : 0 < c) :
    ∀ (fuel : Nat) (l : List α), l.length ≤ fuel →
    ∀ b ∈ (chunksAux c fuel l).dropLast, b.length = c := by
  intro fuel
  induction fuel with
  | zero =>
    intro l hl b hb
    have hnil : l = [] := List.length_eq_zero.mp (Nat.le_zero.mp hl)
    subst hnil
    simp [chunksAux] at hb
  | succ fuel ih =>
    intro l hl b hb
    cases l with
    | nil => simp [chunksAux] at hb
    | cons x xs =>
      have hrest : ((x :: xs).drop c).length ≤ fuel := by
        rw [List.length_drop]
        simp only [List.length_cons] at hl ⊢
        omega
      simp only [chunksAux] at hb
      cases hdrop : (x :: xs).drop c with
      | nil =>
        rw [hdrop] at hb
        simp [chunksAux] at hb
      | cons d ds =>
        rw [hdrop] at hb
        cases fuel with
        | zero =>
          exfalso
          rw [hdrop] at hrest
          simp at hrest
        | succ f =>
          simp only [chunksAux, List.dropLast, List.mem_cons] at hb
          rcases hb with hb | hb
          · subst hb
            have hlen : c < (x :: xs).length := by
              have := List.length_drop c (x :: xs)
              rw [hdrop] at this
              simp only [List.length_cons] at this ⊢
              omega
            rw [List.length_take]
            omega
          · have := ih _ hrest b
            rw [hdrop] at this
            apply this
            simpa [chunksAux, List.dropLast] using hb

/-- Claim C4: for every ordered job list and concurrency `c > 0`, the
WorkerPool's trace is the batches in order with a cooldown between
consecutive batches and none after the last; the batches are consecutive
(their concatenation is the job list), every non-final batch has exactly
`c` jobs, and every batch is non-empty with at most `c` jobs.  The
sequential trace also expresses the barrier: a batch's jobs all settle
before the following event. -/
theorem workerPool_batches (env : Env) (jobs : List SelJob) (c : Nat) (hc : 0 < c) :
    (processInParallel env jobs c).events = batchesWithCooldowns (chunks c jobs)
    ∧ (chunks c jobs).flatten = jobs
    ∧ (∀ b ∈ (chunks c jobs).dropLast, b.length = c)
    ∧ (∀ b ∈ chunks c jobs, 0 < b.length ∧ b.length ≤ c) := by
  refine ⟨?_, chunksAux_join c hc jobs.length jobs le_rfl,
    chunksAux_dropLast_len c hc jobs.length jobs le_rfl,
    chunksAux_mem_len c hc jobs.length jobs⟩
  rw [processInParallel, processInParallelAux_eq env c hc jobs.length jobs le_rfl]
  rfl

/-- Witness for C4: 12 jobs at concurrency 5 run as batches of sizes
5, 5, 2 with cooldowns after the first and second batch only. -/
theorem workerPool_batches_witness :
    0 < 5
    ∧ ((processInParallel envOk jobs12 5).events = batchesWithCooldowns (chunks 5 jobs12)
       ∧ (chunks 5 jobs12).flatten = jobs12
       ∧ (∀ b ∈ (chunks 5 jobs12).dropLast, b.length = 5)
       ∧ (∀ b ∈ chunks 5 jobs12, 0 < b.length ∧ b.length ≤ 5))
    ∧ (chunks 5 jobs12).map List.length = [5, 5, 2] :=
  ⟨by decide, workerPool_batches envOk jobs12 5 (by decide), by decide⟩

/-- Claim C6: a job whose analysis is non-null attaches the analysis and
a copy of its description string to its own entry and counts as one
success; a null analysis leaves the entry untouched and counts as one
error; the pool's result list is the independent per-job map (no job
affects another's entry), and the counters are exactly the counts of
successful and failed jobs. -/
theorem job_outcome_and_counters (env : Env) (b : Bookmark) :
    (∀ a, jobAnalysis env b = some a →
      (processBookmark env b).success = true ∧
      (processBookmark env b).bookmark
        = { b with styleAnalysis := some a, stylePrompt := some a.prompt })
    ∧ (jobAnalysis env b = none →
      (processBookmark env b).success = false ∧ (processBookmark env b).bookmark = b)
    ∧ (∀ (jobs : List SelJob) (c : Nat), 0 < c →
      (processInParallel env jobs c).results
          = jobs.map (fun j => (j, processBookmark env j.bookmark))
      ∧ (processInParallel env jobs c).processed
          = jobs.countP (fun j => (processBookmark env j.bookmark).success)
      ∧ (processInParallel env jobs c).errors
          = jobs.countP (fun j => !(processBookmark env j.bookmark).success)) := by
  refine ⟨?_, ?_, ?_⟩
  · intro a ha
    simp [processBookmark, ha]
  · intro ha
    simp [processBookmark, ha]
  · intro jobs c hc
    rw [processInParallel, processInParallelAux_eq env c hc jobs.length jobs le_rfl]
    exact ⟨rfl, rfl, rfl⟩

/-- Witness for C6: a concrete job whose analysis succeeds gets the
analysis and its prompt attached and reports success. -/
theorem job_outcome_witness :
    jobAnalysis envGood bW = some sampleAnalysis
    ∧ ((processBookmark envGood bW).success = true
       ∧ (processBookmark envGood bW).bookmark
         = { bW with styleAnalysis := some sampleAnalysis
                     stylePrompt := some sampleAnalysis.prompt }) := by
  have h : jobAnalysis envGood bW = some sampleAnalysis := by decide
  exact ⟨h, (job_outcome_and_counters envGood bW).1 sampleAnalysis h⟩

/-! ### Job selection -/

theorem select_fold_eq (category : String) :
    ∀ (bs : List Bookmark) (acc : List SelJob) (k : Nat),
    (bs.foldl
      (fun (st : List SelJob × Nat) (b : Bookmark) =>
        (if eligibleB b then st.1 ++ [⟨category, st.2, b⟩] else st.1, st.2 + 1))
      (acc, k)).1
    = acc ++ ((bs.enumFrom k).filter (fun p => eligibleB p.2)).map
        (fun p => ⟨category, p.1, p.2⟩) := by
  intro bs
  induction bs with
  | nil =>
    intro acc k
    simp [List.enumFrom]
  | cons b bs ih =>
    intro acc k
    simp only [List.foldl_cons, List.enumFrom, List.filter_cons]
    by_cases hb : eligibleB b
    · rw [if_pos hb, ih]
      simp [hb]
    · rw [if_neg hb, ih]
      simp [hb]

theorem select_foldl_cats (data : BookmarkData) :
    ∀ (cats : List String) (acc : List SelJob),
    cats.foldl
      (fun acc category =>
        match lookupCat data category with
        | none => acc
        | some bookmarks =>
          (bookmarks.foldl
            (fun (st : List SelJob × Nat) (b : Bookmark) =>
              (if eligibleB b then st.1 ++ [⟨category, st.2, b⟩] else st.1, st.2 + 1))
            (acc, 0)).1) acc
    = acc ++ cats.flatMap (fun category =>
        match lookupCat data category with
        | none => []
        | some bookmarks =>
          (bookmarks.enum.filter (fun p => eligibleB p.2)).map
            (fun p => ⟨category, p.1, p.2⟩)) := by
  intro cats
  induction cats with
  | nil =>
    intro acc
    simp
  | cons cat cats ih =>
    intro acc
    simp only [List.foldl_cons, List.flatMap_cons]
    cases hl : lookupCat data cat with
    | none =>
      rw [ih]
      simp
    | some bs =>
      rw [ih]
      simp only [select_fold_eq cat bs acc 0]
      simp [List.append_assoc]
      rfl

theorem selectJobs_eq_spec (data : BookmarkData) : selectJobs data = selectJobsSpec data := by
  simpa [selectJobs, selectJobsSpec] using select_foldl_cats data STYLE_ENABLED_CATEGORIES []

theorem mem_selectJobs (data : BookmarkData) (j : SelJob) (hj : j ∈ selectJobs data) :
    j.category ∈ STYLE_ENABLED_CATEGORIES
    ∧ ∃ bs, lookupCat data j.category = some bs
        ∧ bs.get? j.index = some j.bookmark ∧ eligibleB j.bookmark = true := by
  rw [selectJobs_eq_spec] at hj
  simp only [selectJobsSpec] at hj
  rw [List.mem_flatMap] at hj
  obtain ⟨cat, hcat, hjc⟩ := hj
  cases hl : lookupCat data cat with
  | none =>
    rw [hl] at hjc
    simp at hjc
  | some bs =>
    rw [hl] at hjc
    rw [List.mem_map] at hjc
    obtain ⟨p, hp, hpe⟩ := hjc
    obtain ⟨i, b⟩ := p
    rw [List.mem_filter] at hp
    subst hpe
    refine ⟨hcat, bs, hl, ?_, hp.2⟩
    rw [List.get?_eq_getElem?]
    exact List.mk_mem_enum_iff_getElem?.mp hp.1

/-- Claim C3: JobSelector returns exactly the entries of the configured
categories that have a truthy (non-null, non-empty) media url and no
existing analysis, ordered by the category list and then by entry index
(the equality with `selectJobsSpec` fixes content and order); every
selected entry indeed lies at its recorded position and every entry
holding an AnalysisResult is excluded. -/
theorem jobSelector_exact (data : BookmarkData) :
    selectJobs data = selectJobsSpec data
    ∧ ∀ j ∈ selectJobs data,
        j.category ∈ STYLE_ENABLED_CATEGORIES
        ∧ (∃ bs, lookupCat data j.category = some bs ∧ bs.get? j.index = some j.bookmark)
        ∧ strTruthy j.bookmark.mediaUrl = true
        ∧ j.bookmark.styleAnalysis = none := by
  refine ⟨selectJobs_eq_spec data, ?_⟩
  intro j hj
  obtain ⟨h1, bs, h2, h3, h4⟩ := mem_selectJobs data j hj
  simp only [eligibleB, Bool.and_eq_true] at h4
  exact ⟨h1, ⟨bs, h2, h3⟩, h4.1, Option.isNone_iff_eq_none.mp h4.2⟩

/-- Witness for C3 at the concrete dataset: the single eligible entry of
"Design & UI" is selected at index 0; the already-analyzed entry and the
non-enabled category are excluded. -/
theorem jobSelector_witness :
    selectJobs dataW = selectJobsSpec dataW
    ∧ (⟨"Design & UI", 0, bW⟩ : SelJob) ∈ selectJobs dataW
    ∧ ((⟨"Design & UI", 0, bW⟩ : SelJob).category ∈ STYLE_ENABLED_CATEGORIES
       ∧ (∃ bs, lookupCat dataW (⟨"Design & UI", 0, bW⟩ : SelJob).category = some bs
            ∧ bs.get? (⟨"Design & UI", 0, bW⟩ : SelJob).index
                = some (⟨"Design & UI", 0, bW⟩ : SelJob).bookmark)
       ∧ strTruthy (⟨"Design & UI", 0, bW⟩ : SelJob).bookmark.mediaUrl = true
       ∧ (⟨"Design & UI", 0, bW⟩ : SelJob).bookmark.styleAnalysis = none) :=
  ⟨(jobSelector_exact dataW).1, by decide,
   (jobSelector_exact dataW).2 ⟨"Design & UI", 0, bW⟩ (by decide)⟩

/-! ### Dataset updates and slicing -/

theorem lookupCat_setEntry_ne (c c2 : String) (i : Nat) (b : Bookmark) (hne : c ≠ c2) :
    ∀ data : BookmarkData, lookupCat (setEntry data c2 i b) c = lookupCat data c := by
  intro data
  induction data with
  | nil => rfl
  | cons kv rest ih =>
    obtain ⟨k, bs⟩ := kv
    by_cases hk : k = c2
    · subst hk
      simp only [setEntry, if_pos rfl, lookupCat]
      rw [if_neg (fun he => hne he.symm), if_neg (fun he => hne he.symm)]
    · simp only [setEntry, if_neg hk, lookupCat]
      by_cases hkc : k = c
      · rw [if_pos hkc, if_pos hkc]
      · rw [if_neg hkc, if_neg hkc]
        exact ih

theorem lookupCat_setEntry_eq (c : String) (i : Nat) (b : Bookmark) :
    ∀ (data : BookmarkData) (bs : List Bookmark), lookupCat data c = some bs →
    lookupCat (setEntry data c i b) c = some (bs.set i b) := by
  intro data
  induction data with
  | nil =>
    intro bs h
    cases h
  | cons kv rest ih =>
    obtain ⟨k, bs0⟩ := kv
    intro bs h
    by_cases hk : k = c
    · simp only [lookupCat, if_pos hk] at h
      injection h with h
      subst h
      simp only [setEntry, if_pos hk, lookupCat]
    · simp only [lookupCat, if_neg hk] at h
      simp only [setEntry, if_neg hk, lookupCat]
      exact ih bs h

theorem applyResults_preserves :
    ∀ (results : List (SelJob × JobResult)) (data : BookmarkData) (c : String) (i : Nat)
      (bs : List Bookmark) (b : Bookmark),
    lookupCat data c = some bs → bs.get? i = some b →
    (∀ p ∈ results, p.1.category ≠ c ∨ p.1.index ≠ i) →
    ∃ bs2, lookupCat (applyResults data results) c = some bs2 ∧ bs2.get? i = some b := by
  intro results
  induction results with
  | nil =>
    intro data c i bs b h1 h2 _
    exact ⟨bs, h1, h2⟩
  | cons p ps ih =>
    intro data c i bs b h1 h2 hpos
    have hp := hpos p (List.mem_cons_self p ps)
    have hstep : ∃ bs1,
        lookupCat (setEntry data p.1.category p.1.index p.2.bookmark) c = some bs1
        ∧ bs1.get? i = some b := by
      by_cases hpc : p.1.category = c
      · have hpi : p.1.index ≠ i := by
          rcases hp with h | h
          · exact absurd hpc h
          · exact h
        refine ⟨bs.set p.1.index p.2.bookmark, ?_, ?_⟩
        · rw [hpc]
          exact lookupCat_setEntry_eq c p.1.index p.2.bookmark data bs h1
        · rw [List.get?_set_ne p.2.bookmark bs hpi]
          exact h2
      · refine ⟨bs, ?_, h2⟩
        rw [lookupCat_setEntry_ne c p.1.category p.1.index p.2.bookmark
          (fun he => hpc he.symm) data]
        exact h1
    obtain ⟨bs1, hb1, hb2⟩ := hstep
    have happ : applyResults data (p :: ps)
        = applyResults (setEntry data p.1.category p.1.index p.2.bookmark) ps := rfl
    rw [happ]
    exact ih _ c i bs1 b hb1 hb2 (fun q hq => hpos q (List.mem_cons_of_mem p hq))

theorem jsSliceEnd_eq_take (l : List α) (e : JSNum) : ∃ k, jsSliceEnd l e = l.take k := by
  cases e with
  | num n =>
    by_cases hn : n < 0
    · exact ⟨l.length - n.natAbs, by simp [jsSliceEnd, hn]⟩
    · exact ⟨n.toNat, by simp [jsSliceEnd, hn]⟩
  | posInf => exact ⟨l.length, by simp [jsSliceEnd]⟩
  | nan => exact ⟨0, rfl⟩

theorem slice_min_num (l : List α) (n : Int) (hn : 0 ≤ n) :
    jsSliceEnd l (jsMin l.length (JSNum.num n)) = l.take n.toNat := by
  simp only [jsMin, jsSliceEnd]
  have hmin : ¬ (min (l.length : Int) n < 0) := by omega
  rw [if_neg hmin]
  have htn : (min (l.length : Int) n).toNat = min l.length n.toNat := by omega
  rw [htn, List.take_eq_take]
  omega

theorem slice_min_posInf (l : List α) :
    jsSliceEnd l (jsMin l.length JSNum.posInf) = l := by
  simp only [jsMin, jsSliceEnd]
  have h0 : ¬ ((l.length : Int) < 0) := by omega
  rw [if_neg h0]
  simp

/-! ### Orchestrator equations -/

theorem mainRun_bird_fail (env : Env) (data : BookmarkData) (dryRun : Bool) (limit : JSNum)
    (h : env.birdOk = false) :
    mainRun env data dryRun limit = ⟨1, false, [], 0, 0, false, data, [], []⟩ := by
  simp [mainRun, h]

theorem mainRun_kimi_fail (env : Env) (data : BookmarkData) (dryRun : Bool) (limit : JSNum)
    (hb : env.birdOk = true) (hk : env.kimiOk = false) :
    mainRun env data dryRun limit = ⟨1, false, [], 0, 0, false, data, [], []⟩ := by
  simp [mainRun, hb, hk]

theorem mainRun_no_jobs (env : Env) (data : BookmarkData) (dryRun : Bool) (limit : JSNum)
    (hb : env.birdOk = true) (hk : env.kimiOk = true) (hsel : selectJobs data = []) :
    mainRun env data dryRun limit = ⟨0, true, [], 0, 0, false, data, [], []⟩ := by
  simp [mainRun, hb, hk, hsel]

theorem mainRun_dry (env : Env) (data : BookmarkData) (limit : JSNum)
    (hb : env.birdOk = true) (hk : env.kimiOk = true) (hsel : selectJobs data ≠ []) :
    mainRun env data true limit =
      ⟨0, true, jsSliceEnd (selectJobs data) (jsMin (selectJobs data).length limit),
       0, 0, false, data, [], []⟩ := by
  simp [mainRun, hb, hk, List.isEmpty_iff, hsel]

theorem mainRun_normal (env : Env) (data : BookmarkData) (limit : JSNum)
    (hb : env.birdOk = true) (hk : env.kimiOk = true) (hsel : selectJobs data ≠ []) :
    mainRun env data false limit =
      ⟨0, true,
       jsSliceEnd (selectJobs data) (jsMin (selectJobs data).length limit),
       (processInParallel env
         (jsSliceEnd (selectJobs data) (jsMin (selectJobs data).length limit))
         CONCURRENCY).processed,
       (processInParallel env
         (jsSliceEnd (selectJobs data) (jsMin (selectJobs data).length limit))
         CONCURRENCY).errors,
       decide (0 < (processInParallel env
         (jsSliceEnd (selectJobs data) (jsMin (selectJobs data).length limit))
         CONCURRENCY).processed),
       applyResults data (processInParallel env
         (jsSliceEnd (selectJobs data) (jsMin (selectJobs data).length limit))
         CONCURRENCY).results,
       (processInParallel env
         (jsSliceEnd (selectJobs data) (jsMin (selectJobs data).length limit))
         CONCURRENCY).birdTrace,
       (processInParallel env
         (jsSliceEnd (selectJobs data) (jsMin (selectJobs data).length limit))
         CONCURRENCY).kimiTrace⟩ := by
  simp [mainRun, hb, hk, List.isEmpty_iff, hsel]

/-- Claim C9: if either external tool is not invocable the run exits
with status 1 before any read of the dataset file; otherwise the exit
status is 0, regardless of per-job failures (per-job failures only
change the counters, never the exit path). -/
theorem preflight_exit_codes (env : Env) (data : BookmarkData) (dryRun : Bool)
    (limit : JSNum) :
    ((env.birdOk = false ∨ env.kimiOk = false) →
      (mainRun env data dryRun limit).exitCode = 1
      ∧ (mainRun env data dryRun limit).datasetRead = false)
    ∧ (env.birdOk = true → env.kimiOk = true →
      (mainRun env data dryRun limit).exitCode = 0) := by
  constructor
  · intro h
    rcases h with h | h
    · rw [mainRun_bird_fail env data dryRun limit h]
      exact ⟨rfl, rfl⟩
    · by_cases hb : env.birdOk = true
      · rw [mainRun_kimi_fail env data dryRun limit hb h]
        exact ⟨rfl, rfl⟩
      · rw [mainRun_bird_fail env data dryRun limit (by revert hb; cases env.birdOk <;> simp)]
        exact ⟨rfl, rfl⟩
  · intro hb hk
    by_cases hsel : selectJobs data = []
    · rw [mainRun_no_jobs env data dryRun limit hb hk hsel]
    · cases dryRun with
      | false => rw [mainRun_normal env data limit hb hk hsel]
      | true => rw [mainRun_dry env data limit hb hk hsel]

/-- Witness for C9: with the bird CLI missing the run exits 1 without
reading the dataset; with both tools present it exits 0. -/
theorem preflight_exit_codes_witness :
    (envNoBird.birdOk = false ∨ envNoBird.kimiOk = false)
    ∧ ((mainRun envNoBird dataW false JSNum.posInf).exitCode = 1
       ∧ (mainRun envNoBird dataW false JSNum.posInf).datasetRead = false)
    ∧ (mainRun envOk dataW false JSNum.posInf).exitCode = 0 :=
  ⟨Or.inl rfl,
   (preflight_exit_codes envNoBird dataW false JSNum.posInf).1 (Or.inl rfl),
   (preflight_exit_codes envOk dataW false JSNum.posInf).2 rfl rfl⟩

/-- Claim C7: in dry-run mode the run performs no bird and no kimi
invocations and never writes the dataset file; in normal mode the
dataset is persisted exactly when at least one job succeeded. -/
theorem dryRun_frame (env : Env) (data : BookmarkData) (limit : JSNum)
    (hb : env.birdOk = true) (hk : env.kimiOk = true) :
    ((mainRun env data true limit).birdTrace = []
     ∧ (mainRun env data true limit).kimiTrace = []
     ∧ (mainRun env data true limit).saved = false)
    ∧ ((mainRun env data false limit).saved = true
        ↔ 0 < (mainRun env data false limit).processed) := by
  constructor
  · by_cases hsel : selectJobs data = []
    · rw [mainRun_no_jobs env data true limit hb hk hsel]
      exact ⟨rfl, rfl, rfl⟩
    · rw [mainRun_dry env data limit hb hk hsel]
      exact ⟨rfl, rfl, rfl⟩
  · by_cases hsel : selectJobs data = []
    · rw [mainRun_no_jobs env data false limit hb hk hsel]
      simp
    · rw [mainRun_normal env data limit hb hk hsel]
      simp

/-- Witness for C7 at the concrete dataset and environment. -/
theorem dryRun_frame_witness :
    envOk.birdOk = true ∧ envOk.kimiOk = true
    ∧ (((mainRun envOk dataW true JSNum.posInf).birdTrace = []
        ∧ (mainRun envOk dataW true JSNum.posInf).kimiTrace = []
        ∧ (mainRun envOk dataW true JSNum.posInf).saved = false)
       ∧ ((mainRun envOk dataW false JSNum.posInf).saved = true
           ↔ 0 < (mainRun envOk dataW false JSNum.posInf).processed)) :=
  ⟨rfl, rfl, dryRun_frame envOk dataW JSNum.posInf rfl rfl⟩

/-- Claim C5: a finite non-negative limit `n` makes the run process
exactly the first `n` jobs of the selector order (a truncation, never a
different subset); with no limit (`Infinity`) the whole list is
processed. -/
theorem limit_truncates (env : Env) (data : BookmarkData) (dryRun : Bool) (n : Int)
    (hb : env.birdOk = true) (hk : env.kimiOk = true) :
    (0 ≤ n → (mainRun env data dryRun (JSNum.num n)).jobs = (selectJobs data).take n.toNat)
    ∧ (mainRun env data dryRun JSNum.posInf).jobs = selectJobs data
    ∧ (∀ lim2 : JSNum, ∃ k, (mainRun env data dryRun lim2).jobs = (selectJobs data).take k) := by
  refine ⟨?_, ?_, ?_⟩
  · intro hn
    by_cases hsel : selectJobs data = []
    · rw [mainRun_no_jobs env data dryRun _ hb hk hsel, hsel]
      simp
    · cases dryRun with
      | false =>
        rw [mainRun_normal env data _ hb hk hsel]
        exact slice_min_num (selectJobs data) n hn
      | true =>
        rw [mainRun_dry env data _ hb hk hsel]
        exact slice_min_num (selectJobs data) n hn
  · by_cases hsel : selectJobs data = []
    · rw [mainRun_no_jobs env data dryRun _ hb hk hsel, hsel]
    · cases dryRun with
      | false =>
        rw [mainRun_normal env data _ hb hk hsel]
        exact slice_min_posInf (selectJobs data)
      | true =>
        rw [mainRun_dry env data _ hb hk hsel]
        exact slice_min_posInf (selectJobs data)
  · intro lim2
    by_cases hsel : selectJobs data = []
    · rw [mainRun_no_jobs env data dryRun lim2 hb hk hsel, hsel]
      exact ⟨0, rfl⟩
    · cases dryRun with
      | false =>
        rw [mainRun_normal env data lim2 hb hk hsel]
        exact jsSliceEnd_eq_take (selectJobs data) (jsMin (selectJobs data).length lim2)
      | true =>
        rw [mainRun_dry env data lim2 hb hk hsel]
        exact jsSliceEnd_eq_take (selectJobs data) (jsMin (selectJobs data).length lim2)

/-- Witness for C5 at limit 3 on the concrete dataset. -/
theorem limit_truncates_witness :
    envOk.birdOk = true ∧ envOk.kimiOk = true ∧ (0 : Int) ≤ 3
    ∧ (mainRun envOk dataW false (JSNum.num 3)).jobs = (selectJobs dataW).take (3 : Int).toNat
    ∧ (mainRun envOk dataW false JSNum.posInf).jobs = selectJobs dataW
    ∧ (∃ k, (mainRun envOk dataW false (JSNum.num 3)).jobs = (selectJobs dataW).take k) :=
  ⟨rfl, rfl, by decide,
   (limit_truncates envOk dataW false 3 rfl rfl).1 (by decide),
   (limit_truncates envOk dataW false 3 rfl rfl).2.1,
   (limit_truncates envOk dataW false 3 rfl rfl).2.2 (JSNum.num 3)⟩

/-- Claim C10: when the `--limit` flag is present but its value is
absent or non-numeric, the parsed limit is `NaN` and the run's job slice
is empty — zero jobs are processed instead of the unbounded default
(`jsParseInt none = nan` is the flag-without-value case). -/
theorem nan_limit_zero_jobs (args : List String) (i : Nat) (env : Env)
    (data : BookmarkData)
    (hidx : args.findIdx? (fun s => s == "--limit") = some i)
    (hnan : jsParseInt (args.get? (i + 1)) = JSNum.nan)
    (hb : env.birdOk = true) (hk : env.kimiOk = true) :
    parseLimit args = JSNum.nan
    ∧ (mainRun env data false (parseLimit args)).jobs = []
    ∧ jsParseInt none = JSNum.nan := by
  have hpl : parseLimit args = JSNum.nan := by
    simp only [parseLimit, hidx]
    exact hnan
  refine ⟨hpl, ?_, rfl⟩
  rw [hpl]
  by_cases hsel : selectJobs data = []
  · rw [mainRun_no_jobs env data false JSNum.nan hb hk hsel]
  · rw [mainRun_normal env data JSNum.nan hb hk hsel]
    rfl

/-- Witness for C10: `--limit` as the last argument parses to `NaN` and
the run's job slice is empty although the dataset has an eligible job. -/
theorem nan_limit_zero_jobs_witness :
    (["--limit"] : List String).findIdx? (fun s => s == "--limit") = some 0
    ∧ jsParseInt ((["--limit"] : List String).get? 1) = JSNum.nan
    ∧ (parseLimit ["--limit"] = JSNum.nan
       ∧ (mainRun envOk dataW false (parseLimit ["--limit"])).jobs = []
       ∧ jsParseInt none = JSNum.nan)
    ∧ selectJobs dataW ≠ [] := by
  refine ⟨by decide, rfl, ?_, by decide⟩
  exact nan_limit_zero_jobs ["--limit"] 0 envOk dataW (by decide) rfl rfl rfl

/-- Claim C1: an entry that already holds an AnalysisResult before the
run is left entirely unchanged by the whole run (selection excludes it,
and every job result is written at a different position), on every path
of `main` — preflight abort, empty selection, dry-run and normal run. -/
theorem pipeline_preserves_existing_analysis (env : Env) (data : BookmarkData)
    (dryRun : Bool) (limit : JSNum) (c : String) (i : Nat) (bs : List Bookmark)
    (b : Bookmark) (a : StyleAnalysis)
    (hlook : lookupCat data c = some bs) (hget : bs.get? i = some b)
    (hana : b.styleAnalysis = some a) :
    ∃ bs2, lookupCat (mainRun env data dryRun limit).finalData c = some bs2
      ∧ bs2.get? i = some b := by
  by_cases hb : env.birdOk = true
  · by_cases hk : env.kimiOk = true
    · by_cases hsel : selectJobs data = []
      · rw [mainRun_no_jobs env data dryRun limit hb hk hsel]
        exact ⟨bs, hlook, hget⟩
      · cases dryRun with
        | true =>
          rw [mainRun_dry env data limit hb hk hsel]
          exact ⟨bs, hlook, hget⟩
        | false =>
          rw [mainRun_normal env data limit hb hk hsel]
          refine applyResults_preserves _ data c i bs b hlook hget ?_
          intro p hp
          have hres : (processInParallel env
              (jsSliceEnd (selectJobs data) (jsMin (selectJobs data).length limit))
              CONCURRENCY).results
              = (jsSliceEnd (selectJobs data) (jsMin (selectJobs data).length limit)).map
                  (fun j => (j, processBookmark env j.bookmark)) := by
            rw [processInParallel,
              processInParallelAux_eq env CONCURRENCY (by decide) _ _ le_rfl]
          rw [hres, List.mem_map] at hp
          obtain ⟨j, hj, hpe⟩ := hp
          obtain ⟨k, hk2⟩ :=
            jsSliceEnd_eq_take (selectJobs data) (jsMin (selectJobs data).length limit)
          rw [hk2] at hj
          have hjsel : j ∈ selectJobs data := List.take_subset k (selectJobs data) hj
          obtain ⟨_, bsj, hlj, hgj, hej⟩ := mem_selectJobs data j hjsel
          subst hpe
          by_cases hc : j.category = c
          · refine Or.inr ?_
            intro hi
            rw [hc, hlook] at hlj
            injection hlj with hlj
            subst hlj
            rw [hi, hget] at hgj
            injection hgj with hgj
            rw [← hgj] at hej
            simp only [eligibleB, Bool.and_eq_true] at hej
            rw [hana] at hej
            simp at hej
          · exact Or.inl hc
    · rw [mainRun_kimi_fail env data dryRun limit hb (by revert hk; cases env.kimiOk <;> simp)]
      exact ⟨bs, hlook, hget⟩
  · rw [mainRun_bird_fail env data dryRun limit (by revert hb; cases env.birdOk <;> simp)]
    exact ⟨bs, hlook, hget⟩

/-- Witness for C1: the already-analyzed entry of the concrete dataset
survives a full normal run untouched. -/
theorem pipeline_preserves_witness :
    lookupCat dataW "Design & UI"
      = some [bW, mkBookmark "b2" (some "https://img/2") (some sampleAnalysis)]
    ∧ [bW, mkBookmark "b2" (some "https://img/2") (some sampleAnalysis)].get? 1
      = some (mkBookmark "b2" (some "https://img/2") (some sampleAnalysis))
    ∧ (mkBookmark "b2" (some "https://img/2") (some sampleAnalysis)).styleAnalysis
      = some sampleAnalysis
    ∧ (∃ bs2,
        lookupCat (mainRun envGood dataW false JSNum.posInf).finalData "Design & UI"
          = some bs2
        ∧ bs2.get? 1 = some (mkBookmark "b2" (some "https://img/2") (some sampleAnalysis))) := by
  refine ⟨by decide, rfl, rfl, ?_⟩
  exact pipeline_preserves_existing_analysis envGood dataW false JSNum.posInf
    "Design & UI" 1 [bW, mkBookmark "b2" (some "https://img/2") (some sampleAnalysis)]
    (mkBookmark "b2" (some "https://img/2") (some sampleAnalysis)) sampleAnalysis
    (by decide) rfl rfl

end BookmarkPipeline
